import Mathlib

set_option maxRecDepth 8000

/-!
Shallow embedding of the `web_search_skill_glm` package (Python).

Python strings are modelled as `List Char` (`PyStr`): Python indexing,
slicing and `len` act on code points, exactly as `List Char` does.
Each definition translates the function of the same name in the source
files `models.py`, `query_rewriter.py`, `search_serper.py`,
`fetch_jina.py` and `web_search_skill.py`.  Network responses and the
standard `json` library are external collaborators and are modelled as
explicit event/oracle parameters.
-/

abbrev PyStr := List Char

/-- Python `str.strip()`: drop whitespace from both ends. -/
def pstrip (s : PyStr) : PyStr :=
  ((s.dropWhile Char.isWhitespace).reverse.dropWhile Char.isWhitespace).reverse

/-- Python substring test `pat in s`. -/
def containsSub (pat : PyStr) : PyStr → Bool
  | [] => pat.isEmpty
  | c :: rest => pat.isPrefixOf (c :: rest) || containsSub pat rest

/-- Python `str.lower()`. -/
def plower (s : PyStr) : PyStr := s.map Char.toLower

/-- Python truthiness of an optional-string argument (`if x:`):
`None` and the empty string are falsy. -/
def pyTruthyOpt (o : Option PyStr) : Bool :=
  match o with
  | none => false
  | some s => !s.isEmpty

/-- Decimal rendering of a number used by Python f-strings (`f"{i+1}"`). -/
def natStr (n : Nat) : PyStr := (toString n).toList

/-- Model of `models.SearchSource`. -/
structure SearchSource where
  title : PyStr
  url : PyStr
  snippet : PyStr
  position : Nat

/-- Model of `models.FetchedContent`. -/
structure FetchedContent where
  url : PyStr
  title : PyStr
  content : PyStr
  word_count : Nat
  success : Bool
  error : Option PyStr

/-- Model of `models.SearchResult` (the final bundle). -/
structure SearchResult where
  query : PyStr
  search_queries : List PyStr
  sources : List SearchSource
  contents : List FetchedContent

/-- One entry of `SearchResult.get_reference_list`
(the Python dict `{"index": i+1, "title": ..., "url": ...}`). -/
structure Reference where
  index : Nat
  title : PyStr
  url : PyStr

/-- The loop of `SearchResult.get_reference_list`: `i` is the running
`enumerate` index over `contents`; a reference with index `i+1` is
appended for every successful entry. -/
def getRefAux (i : Nat) : List FetchedContent → List Reference
  | [] => []
  | c :: rest =>
    if c.success then ⟨i + 1, c.title, c.url⟩ :: getRefAux (i + 1) rest
    else getRefAux (i + 1) rest

/-- Translation of `SearchResult.get_reference_list`. -/
def get_reference_list (r : SearchResult) : List Reference :=
  getRefAux 0 r.contents

/-- Spec-side description of the citation list: one entry per successful
content, carrying the 1-based position of that entry inside `contents`
together with its title and url. -/
def specRefs (cs : List FetchedContent) : List Reference :=
  ((cs.enum.filter (fun p => p.2.success)).map (fun p => ⟨p.1 + 1, p.2.title, p.2.url⟩))

/-- The request dict built by `SerperSearch.search`: keys `"q"` and
`"num"` are always present, `"gl"`, `"hl"`, `"tbs"` only when the
corresponding argument is truthy; `"tbs"` carries `"qdr:" + time_period`. -/
structure SerperPayload where
  q : PyStr
  num : Nat
  gl : Option PyStr
  hl : Option PyStr
  tbs : Option PyStr

/-- Payload construction in `SerperSearch.search` (`search_serper.py`). -/
def serperPayload (query : PyStr) (num_results : Nat)
    (country language time_period : Option PyStr) : SerperPayload :=
  { q := query
    num := num_results
    gl := if pyTruthyOpt country then country else none
    hl := if pyTruthyOpt language then language else none
    tbs := if pyTruthyOpt time_period then
             some (("qdr:".toList) ++ time_period.getD [])
           else none }

/-- The recency enum of the spec's data model (`timeFilter`:
day / week / month). -/
inductive TimeFilter where
  | day
  | week
  | month

/-- The provider shorthand the code uses to represent the recency enum
(`"d"`, `"w"`, `"m"`; produced by the rewriter, consumed by the search
provider). -/
def TimeFilter.code : TimeFilter → PyStr
  | .day => "d".toList
  | .week => "w".toList
  | .month => "m".toList

/-! ## `fetch_jina.py`: content cleaning and fetching -/

/-- Test applied by `JinaFetcher._clean_content` to a stripped line:
`stripped.startswith("[") and stripped.endswith(")") and len(stripped) < 80`. -/
def isShortLinkLine (stripped : PyStr) : Bool :=
  (stripped.head? == some '[') && (stripped.getLast? == some ')')
    && decide (stripped.length < 80)

/-- Pure-image-line test of `_clean_content`:
`stripped.startswith("![") and "](" in stripped`. -/
def isImageLine (stripped : PyStr) : Bool :=
  ("![".toList).isPrefixOf stripped && containsSub ("](".toList) stripped

/-- Blob-link test of `_clean_content`: `"blob:" in stripped`. -/
def containsBlob (stripped : PyStr) : Bool :=
  containsSub ("blob:".toList) stripped

/-- The loop of `JinaFetcher._clean_content`: `count` is the running
`consecutive_short_links` counter.  A short-link line increments the
counter and is skipped when the counter exceeds 3; any other line resets
the counter; pure-image lines and lines containing `blob:` are skipped;
every other line is kept verbatim. -/
def cleanAux (count : Nat) : List PyStr → List PyStr
  | [] => []
  | line :: rest =>
    let stripped := pstrip line
    if isShortLinkLine stripped then
      if count + 1 > 3 then cleanAux (count + 1) rest
      else if isImageLine stripped then cleanAux (count + 1) rest
      else if containsBlob stripped then cleanAux (count + 1) rest
      else line :: cleanAux (count + 1) rest
    else
      if isImageLine stripped then cleanAux 0 rest
      else if containsBlob stripped then cleanAux 0 rest
      else line :: cleanAux 0 rest

/-- Translation of `JinaFetcher._clean_content`: split on newlines, filter, re-join. -/
def cleanContent (text : PyStr) : PyStr :=
  List.intercalate ("\n".toList) (cleanAux 0 (text.splitOn '\n'))

/-- Spec-side keep-predicate for one line of `_clean_content`, where `k`
is the number of consecutive short-link lines immediately preceding the
line in its run: a short markdown link line is kept when fewer than 3
short-link lines precede it in the run and it does not contain `blob:`;
any other line is kept when it is neither a pure-image line nor contains
`blob:`. -/
def specKeep (k : Nat) (line : PyStr) : Bool :=
  let stripped := pstrip line
  if isShortLinkLine stripped then decide (k < 3) && !containsBlob stripped
  else !isImageLine stripped && !containsBlob stripped

/-- For each line of the input, the number of consecutive short-link
lines immediately preceding it (`k` seeds the count for the first line;
a run is broken by any non-short-link line). -/
def runCounters (k : Nat) : List PyStr → List Nat
  | [] => []
  | line :: rest =>
    k :: runCounters (if isShortLinkLine (pstrip line) then k + 1 else 0) rest

/-- Spec-side description of `_clean_content`'s filtering: keep exactly
the lines allowed by `specKeep` at their run position. -/
def specClean (ls : List PyStr) : List PyStr :=
  ((ls.zip (runCounters 0 ls)).filter (fun p => specKeep p.2 p.1)).map Prod.fst

/-- Truncation marker appended by `JinaFetcher.fetch_one`. -/
def fetchTruncMarker : PyStr := "\n\n...[内容已截断]".toList

/-- Outcome of the network part of one `fetch_one` call (the `httpx`
client is an external collaborator): timeout, HTTP status error, other
exception, or a successful response body. -/
inductive FetchEvent where
  | timeout
  | httpStatus (code : Nat)
  | otherExc (msg : PyStr)
  | ok (rawBody : PyStr)

/-- Title extraction loop of `fetch_one`: first line whose stripped form
starts with `#` gives the heading text (leading `#`s stripped);
otherwise the first non-blank stripped line, cut to 100 characters. -/
def extractTitle : List PyStr → PyStr
  | [] => []
  | line :: rest =>
    let s := pstrip line
    if s.head? == some '#' then pstrip (s.dropWhile (fun c => c == '#'))
    else if !s.isEmpty then s.take 100
    else extractTitle rest

/-- Translation of `JinaFetcher.fetch_one`, given the network outcome for the url.
`timeoutRepr` is the decimal rendering of the timeout used in the
timeout error message. -/
def fetch_one (url : PyStr) (ev : FetchEvent) (timeoutRepr : PyStr)
    (max_length : Nat) : FetchedContent :=
  match ev with
  | .ok raw =>
    let content := cleanContent raw
    let content :=
      if max_length < content.length then content.take max_length ++ fetchTruncMarker
      else content
    let title := extractTitle (content.splitOn '\n')
    { url := url, title := title, content := content,
      word_count := content.length, success := true, error := none }
  | .timeout =>
    { url := url, title := [], content := [], word_count := 0,
      success := false,
      error := some (("超时 (".toList) ++ timeoutRepr ++ ("s)".toList)) }
  | .httpStatus code =>
    { url := url, title := [], content := [], word_count := 0,
      success := false, error := some (("HTTP ".toList) ++ natStr code) }
  | .otherExc msg =>
    { url := url, title := [], content := [], word_count := 0,
      success := false, error := some msg }

/-- Placeholder value of a result slot before its task completes
(every slot of a valid schedule is overwritten). -/
def emptySlot : FetchedContent :=
  { url := [], title := [], content := [], word_count := 0,
    success := false, error := none }

/-- Modelled from the semantics of `asyncio.gather` used by
`fetch_many`: tasks are created in input order, one per url; they
complete in some order (`sched`); each completion writes the result for
its own index into its own slot. -/
def writeSlots (val : Nat → FetchedContent)
    (g : Nat → Option FetchedContent) : List Nat → (Nat → Option FetchedContent)
  | [] => g
  | i :: rest => writeSlots val (fun j => if j = i then some (val i) else g j) rest

/-- Translation of `JinaFetcher.fetch_many`: one `fetch_one` per url with shared
timeout/max-length settings; `asyncio.gather` returns the results in
task order regardless of the completion schedule.  `max_concurrent`
bounds how many fetches are in flight at once and does not influence
the value of any slot. -/
def fetch_many (net : PyStr → FetchEvent) (urls : List PyStr)
    (max_concurrent : Nat) (timeoutRepr : PyStr) (max_length : Nat)
    (sched : List Nat) : List FetchedContent :=
  let val := fun i =>
    fetch_one (urls.getD i []) (net (urls.getD i [])) timeoutRepr max_length
  (List.range urls.length).map
    (fun i => (writeSlots val (fun _ => none) sched i).getD emptySlot)

/-! ## `models.py`: bundle rendering -/

/-- Truncation marker appended by `SearchResult.to_context_string`
(note: a single leading newline, unlike the fetch-time marker). -/
def ctxTruncMarker : PyStr := "\n...[内容已截断]".toList

/-- Per-source body truncation in `to_context_string`: cut at
`max_tokens_per_source * 4` characters, appending the marker when the
body is longer than that. -/
def ctxBody (m : Nat) (text : PyStr) : PyStr :=
  if m * 4 < text.length then text.take (m * 4) ++ ctxTruncMarker else text

/-- Heading emitted for the successful content at `enumerate` index `i`:
`f"### Source [{i+1}]: {title}"`. -/
def srcHeading (i : Nat) (title : PyStr) : PyStr :=
  ("### Source [".toList) ++ natStr (i + 1) ++ ("]: ".toList) ++ title

/-- The url line of a successful content block (`URL: ` plus the url). -/
def urlPart (u : PyStr) : PyStr := ("URL: ".toList) ++ u

/-- The loop of `to_context_string` over `contents`: failed entries are
skipped; a successful entry at `enumerate` index `i` contributes its
heading, its url line and its (possibly truncated) body followed by a
newline. -/
def successPartsAux (m : Nat) (i : Nat) : List FetchedContent → List PyStr
  | [] => []
  | c :: rest =>
    if c.success then
      srcHeading i c.title :: urlPart c.url
        :: (ctxBody m c.content ++ ("\n".toList))
        :: successPartsAux m (i + 1) rest
    else successPartsAux m (i + 1) rest

/-- Leading part: `f"## 搜索结果 (Query: {self.query})\n"`. -/
def headerPart (r : SearchResult) : PyStr :=
  ("## 搜索结果 (Query: ".toList) ++ r.query ++ (")\n".toList)

/-- Header of the snippet fallback section. -/
def snippetHeader : PyStr :=
  "### 搜索摘要 (未能抓取正文，以下为搜索引擎摘要):\n".toList

/-- The fallback loop over `sources`: entry at `enumerate` index `i`
contributes `f"[{i+1}] {title}"`, an indented url line and an indented
snippet line. -/
def snippetListingAux (i : Nat) : List SearchSource → List PyStr
  | [] => []
  | s :: rest =>
    (("[".toList) ++ natStr (i + 1) ++ ("] ".toList) ++ s.title)
      :: (("    URL: ".toList) ++ s.url)
      :: (("    ".toList) ++ s.snippet ++ ("\n".toList))
      :: snippetListingAux (i + 1) rest

/-- Spec-side description of the fallback listing: every source's
title, url and snippet, numbered from 1 in source order. -/
def numberedListing (sources : List SearchSource) : List PyStr :=
  sources.enum.flatMap (fun p =>
    [ ("[".toList) ++ natStr (p.1 + 1) ++ ("] ".toList) ++ p.2.title,
      ("    URL: ".toList) ++ p.2.url,
      ("    ".toList) ++ p.2.snippet ++ ("\n".toList) ])

/-- The `parts` list assembled by `SearchResult.to_context_string`:
header, one block per successful content, and — when no content
succeeded — the snippet fallback section. -/
def contextParts (r : SearchResult) (m : Nat) : List PyStr :=
  headerPart r
    :: (successPartsAux m 0 r.contents
        ++ (if r.contents.any (fun c => c.success) then []
            else snippetHeader :: snippetListingAux 0 r.sources))

/-- Translation of `SearchResult.to_context_string`: join the parts with newlines. -/
def to_context_string (r : SearchResult) (m : Nat) : PyStr :=
  List.intercalate ("\n".toList) (contextParts r m)

/-! ## `query_rewriter.py` -/

/-- Python objects decoded from JSON (the values a parsed LLM response
can hold; also the values stored in the returned rewrite dict). -/
inductive JVal where
  | jnull
  | jbool (b : Bool)
  | jnum (n : Int)
  | jstr (s : PyStr)
  | jarr (xs : List JVal)
  | jobj (fields : List (PyStr × JVal))

/-- The dict returned by `QueryRewriter.rewrite` (keys `search_queries`,
`language`, `time_filter`, `search_type`). -/
structure RewriteDict where
  search_queries : JVal
  language : JVal
  time_filter : JVal
  search_type : JVal

/-- Count of characters in the CJK range `[一, 鿿]`. -/
def chineseCount (q : PyStr) : Nat :=
  q.countP (fun c => decide (0x4e00 ≤ c.toNat) && decide (c.toNat ≤ 0x9fff))

/-- The fixed freshness keyword list of `_rewrite_with_rules`. -/
def newsKeywords : List PyStr :=
  (["最新", "今天", "今日", "昨天", "本周",
    "latest", "today", "yesterday", "this week",
    "新闻", "news", "刚刚", "breaking"]).map String.toList

/-- The fixed news-type keyword list of `_rewrite_with_rules`. -/
def newsTypeKeywords : List PyStr :=
  (["新闻", "news", "最新消息", "事件"]).map String.toList

/-- The ordered conversational-prefix list of `_rewrite_with_rules`. -/
def fillerWords : List PyStr :=
  (["请问", "帮我查一下", "帮我查", "帮我搜一下",
    "帮我搜", "帮我", "我想知道", "可以告诉我",
    "你能帮我", "能不能帮我"]).map String.toList

/-- The locality-intent keyword list of `_rewrite_with_rules`. -/
def locationKeywords : List PyStr :=
  (["附近", "周围", "哪里", "推荐", "餐厅", "酒店",
    "near", "nearby", "restaurant", "hotel"]).map String.toList

/-- The prefix-stripping loop of `_rewrite_with_rules`: strip the first
matching filler word (first match wins) and strip whitespace. -/
def stripFiller : List PyStr → PyStr → PyStr
  | [], q => q
  | w :: ws, q => if w.isPrefixOf q then pstrip (q.drop w.length) else stripFiller ws q

/-- The recency decision of `_rewrite_with_rules`: any freshness keyword
(case-insensitive substring) sets `"w"`; a query starting with `最近`
overrides to `"m"`. -/
def ruleTimeFilter (query : PyStr) : Option PyStr :=
  if ("最近".toList).isPrefixOf query then some ("m".toList)
  else if newsKeywords.any (fun kw => containsSub kw (plower query)) then
    some ("w".toList)
  else none

/-- The query-list construction of `_rewrite_with_rules`: start from
`[query]`; for queries longer than 15 characters prepend the
filler-stripped form when stripping changed the string; append
`query + " " + location` when a truthy location is supplied and a
locality keyword occurs in the query; keep at most 3 entries. -/
def ruleQueries (query : PyStr) (user_location : Option PyStr) : List PyStr :=
  let base := [query]
  let base :=
    if 15 < query.length then
      let simplified := stripFiller fillerWords query
      if !simplified.isEmpty && simplified ≠ query then simplified :: base else base
    else base
  let base :=
    if pyTruthyOpt user_location then
      if locationKeywords.any (fun kw => containsSub kw query) then
        base ++ [query ++ [' '] ++ user_location.getD []]
      else base
    else base
  base.take 3

/-- Translation of `QueryRewriter._rewrite_with_rules`.  The language test
`chinese_chars > len(query) * 0.3` is modelled exactly over the
rationals (`10 * chinese_chars > 3 * len(query)`); the Python original
compares against the binary double `len(query) * 0.3`, which agrees
except on inputs where `10 * chinese_chars` equals `3 * len(query)`
up to the double rounding error. -/
def rewriteWithRules (user_query : PyStr) (user_location : Option PyStr)
    (user_language : PyStr) : RewriteDict :=
  let query := pstrip user_query
  let language : PyStr :=
    if 3 * query.length < 10 * chineseCount query then "zh-cn".toList
    else "en".toList
  let time_filter := ruleTimeFilter query
  let search_type : PyStr :=
    if newsTypeKeywords.any (fun kw => containsSub kw query) then "news".toList
    else "search".toList
  { search_queries := .jarr ((ruleQueries query user_location).map .jstr)
    language := .jstr language
    time_filter := match time_filter with
      | some t => .jstr t
      | none => .jnull
    search_type := .jstr search_type }

/-- Python exception classes that can cross the `try` of
`_rewrite_with_llm` (only the ones its handlers distinguish). -/
inductive PyExc where
  | httpStatusError (status : Nat)
  | timeoutExc
  | jsonDecodeError
  | valueError (msg : PyStr)
  | otherError
  | unboundLocalError

/-- Outcome of the network part of one LLM call (the `httpx` client and
the provider are external): HTTP error status, timeout, a 200 response
whose body is not valid JSON (`response.json()` raises
`json.JSONDecodeError`), a response whose JSON shape lacks
`choices[0].message.content` (`KeyError`-class exceptions), or the
extracted content string. -/
inductive LLMEvent where
  | httpStatusError (status : Nat) (body : PyStr)
  | timeout
  | badJsonBody
  | badShape
  | content (text : PyStr)

/-- Model of the regex substitution removing each occurrence of a literal
pattern plus any whitespace that follows it, for the pattern
`p0 :: ptl`: scan left to right, removing each occurrence of the
pattern together with the whitespace that follows it. -/
def subPatWs (p0 : Char) (ptl : PyStr) : PyStr → PyStr
  | [] => []
  | c :: rest =>
    if (p0 :: ptl).isPrefixOf (c :: rest) then
      subPatWs p0 ptl ((rest.drop ptl.length).dropWhile Char.isWhitespace)
    else c :: subPatWs p0 ptl rest
termination_by s => s.length
decreasing_by
  · simp only [List.length_cons]
    have h1 := (List.dropWhile_sublist (l := rest.drop ptl.length)
      Char.isWhitespace).length_le
    have h2 : (rest.drop ptl.length).length ≤ rest.length := by
      simp [List.length_drop]
    omega
  · simp only [List.length_cons]; omega

/-- The markdown-code-fence cleanup of `_rewrite_with_llm`:
`re.sub(r"```json\s*", "", text)` followed by `re.sub(r"```\s*", "", text)`. -/
def removeFences (t : PyStr) : PyStr :=
  subPatWs '`' ("``".toList) (subPatWs '`' ("``json".toList) t)

/-- The brace-depth scan of `_extract_json_from_text`, starting at the
first `{`: `acc` is the slice `text[start:i+1]` collected so far and
`depth` the current nesting depth.  A `loads` failure on the balanced
slice is a `json.JSONDecodeError` (raised after `text` was assigned). -/
def scanBrace (loads : PyStr → Option JVal) (acc : PyStr) (depth : Int) :
    PyStr → Except (PyExc × Bool) JVal
  | [] => .error (.valueError ("JSON 括号不匹配".toList), true)
  | c :: rest =>
    if c = '{' then scanBrace loads (acc ++ [c]) (depth + 1) rest
    else if c = '}' then
      if depth - 1 = 0 then
        match loads (acc ++ [c]) with
        | some v => .ok v
        | none => .error (.jsonDecodeError, true)
      else scanBrace loads (acc ++ [c]) (depth - 1) rest
    else scanBrace loads (acc ++ [c]) depth rest

/-- Translation of `_extract_json_from_text`, with `json.loads` supplied as an oracle
(`none` = `json.JSONDecodeError`).  The `Bool` of the error pair records
whether the local variable `text` of `_rewrite_with_llm` was already
assigned when the exception was raised (it always is on these paths). -/
def extractJsonFromText (loads : PyStr → Option JVal) (text : PyStr) :
    Except (PyExc × Bool) JVal :=
  let t := pstrip text
  match loads t with
  | some v => .ok v
  | none =>
    match t.findIdx? (fun c => c == '{') with
    | none => .error (.valueError ("未找到 JSON 对象".toList), true)
    | some start => scanBrace loads [] 0 (t.drop start)

/-- Python truthiness of a decoded JSON value. -/
def pyFalsy (v : JVal) : Bool :=
  match v with
  | .jnull => true
  | .jbool b => !b
  | .jnum n => n == 0
  | .jstr s => s.isEmpty
  | .jarr xs => xs.isEmpty
  | .jobj fs => fs.isEmpty

/-- Dict key lookup (`result["k"]` / `result.get("k")`); the parsed
object's keys are unique, as produced by `json.loads`. -/
def jlookup (fields : List (PyStr × JVal)) (key : PyStr) : Option JVal :=
  (fields.find? (fun p => p.1 == key)).map Prod.snd

/-- Python slicing `x[:3]` of the `search_queries` value: lists and
strings slice; any other value raises `TypeError`. -/
def jslice3 : JVal → Option JVal
  | .jarr xs => some (.jarr (xs.take 3))
  | .jstr s => some (.jstr (s.take 3))
  | _ => none

/-- The `try` block of `QueryRewriter._rewrite_with_llm`, as a function
of the network event.  Errors carry the exception plus whether the local
`text` was assigned at the raise point.  A decoded top-level value that
is not a dict is modelled as the `Missing search_queries` `ValueError`
(in Python such values can also fail with a `TypeError` slightly later;
every such path is caught by the same fallback with `text` assigned). -/
def rewriteLLMTry (loads : PyStr → Option JVal) (ev : LLMEvent) :
    Except (PyExc × Bool) RewriteDict :=
  match ev with
  | .httpStatusError s _ => .error (.httpStatusError s, false)
  | .timeout => .error (.timeoutExc, false)
  | .badJsonBody => .error (.jsonDecodeError, false)
  | .badShape => .error (.otherError, false)
  | .content raw =>
    let text := pstrip raw
    let text := pstrip (removeFences text)
    if text.isEmpty then
      .error (.valueError ("模型返回内容为空（请检查 API 密钥、模型名是否可用，如 glm-4 / glm-4-flash）".toList), true)
    else
      match extractJsonFromText loads text with
      | .error e => .error e
      | .ok result =>
        match result with
        | .jobj fields =>
          match jlookup fields ("search_queries".toList) with
          | none => .error (.valueError ("Missing search_queries".toList), true)
          | some sq =>
            if pyFalsy sq then
              .error (.valueError ("Missing search_queries".toList), true)
            else
              match jslice3 sq with
              | none => .error (.otherError, true)
              | some sq3 =>
                .ok { search_queries := sq3
                      language := (jlookup fields ("language".toList)).getD
                        (.jstr ("zh-cn".toList))
                      time_filter := (jlookup fields ("time_filter".toList)).getD .jnull
                      search_type := (jlookup fields ("search_type".toList)).getD
                        (.jstr ("search".toList)) }
        | _ => .error (.valueError ("Missing search_queries".toList), true)

/-- Translation of `QueryRewriter._rewrite_with_llm` with its exception handlers.  The
`json.JSONDecodeError` and `ValueError` handlers evaluate
`text[:300]` / `len(text)` for their log message before falling back:
when the exception was raised before `text` was assigned this read
raises `UnboundLocalError`, which no handler of the same `try` catches
and which therefore escapes the call. -/
def rewriteWithLLM (loads : PyStr → Option JVal) (ev : LLMEvent)
    (user_query : PyStr) (user_location : Option PyStr)
    (user_language : PyStr) : Except PyExc RewriteDict :=
  match rewriteLLMTry loads ev with
  | .ok d => .ok d
  | .error (.httpStatusError _, _) =>
    .ok (rewriteWithRules user_query user_location user_language)
  | .error (.jsonDecodeError, assigned) =>
    if assigned then .ok (rewriteWithRules user_query user_location user_language)
    else .error .unboundLocalError
  | .error (.valueError _, assigned) =>
    if assigned then .ok (rewriteWithRules user_query user_location user_language)
    else .error .unboundLocalError
  | .error _ =>
    .ok (rewriteWithRules user_query user_location user_language)

/-- Translation of `QueryRewriter.rewrite`: LLM path when an API key is set (truthy),
rule path otherwise. -/
def rewrite (llm_api_key : Option PyStr) (loads : PyStr → Option JVal)
    (ev : LLMEvent) (user_query : PyStr) (user_location : Option PyStr)
    (user_language : PyStr) : Except PyExc RewriteDict :=
  if pyTruthyOpt llm_api_key then
    rewriteWithLLM loads ev user_query user_location user_language
  else .ok (rewriteWithRules user_query user_location user_language)

/-! ## `web_search_skill.py`: the orchestrator's merge step -/

/-- The inner `for s in sources` loop of `WebSearchSkill.search`'s
Step 2, on the state (`seen_urls`, `all_sources`): append every source
whose url was not seen before, recording its url as seen. -/
def mergeInner (st : List PyStr × List SearchSource)
    (sources : List SearchSource) : List PyStr × List SearchSource :=
  sources.foldl
    (fun st s => if s.url ∈ st.1 then st else (s.url :: st.1, st.2 ++ [s]))
    st

/-- The merge loop of `WebSearchSkill.search` (Step 2): run the inner
loop over each rewritten query's result list in order, starting from an
empty seen-set and accumulator, and return the accumulated sources. -/
def mergeStep (qres : List (List SearchSource)) : List SearchSource :=
  (qres.foldl mergeInner (([] : List PyStr), ([] : List SearchSource))).2

/-- State-passing form of the inner dedup loop: returns the final seen
set together with the kept sources. -/
def dedupSt (seen : List PyStr) : List SearchSource → (List PyStr × List SearchSource)
  | [] => (seen, [])
  | s :: rest =>
    if s.url ∈ seen then dedupSt seen rest
    else
      let r := dedupSt (s.url :: seen) rest
      (r.1, s :: r.2)

/-- Spec-side first-occurrence filter: walking the flattened source
list, keep a record exactly when none of the records before it carries
the same url (`prev` collects all records already walked). -/
def keepFirstAux (prev : List SearchSource) : List SearchSource → List SearchSource
  | [] => []
  | s :: rest =>
    if prev.all (fun t => !(t.url == s.url)) then
      s :: keepFirstAux (prev ++ [s]) rest
    else keepFirstAux (prev ++ [s]) rest

/-- Spec-side description of the merge: keep exactly the first
occurrence of every url of the flattened per-query results. -/
def keepFirst (ls : List SearchSource) : List SearchSource :=
  keepFirstAux [] ls

/-! ## Concrete sample values (used to evaluate the theorems below on
closed inputs) -/

/-- A failed fetch record. -/
def sampleFail : FetchedContent :=
  { url := ("u1".toList), title := [], content := [], word_count := 0,
    success := false, error := some (("HTTP 404".toList)) }

/-- A successful fetch record with a 9-character body. -/
def sampleSucc : FetchedContent :=
  { url := ("u2".toList), title := ("T".toList),
    content := ("123456789".toList), word_count := 9,
    success := true, error := none }

/-- A search hit. -/
def sampleSource : SearchSource :=
  { title := ("T".toList), url := ("http://u".toList),
    snippet := ("snip".toList), position := 1 }

/-- A bundle whose only page failed. -/
def sampleBundle : SearchResult :=
  { query := ("q".toList), search_queries := [],
    sources := [sampleSource], contents := [sampleFail] }

/-! ### Theorems for claims C2 and C3 -/

theorem getRefAux_eq_enumFrom (cs : List FetchedContent) :
    ∀ i, getRefAux i cs =
      (((List.enumFrom i cs).filter (fun p => p.2.success)).map
        (fun p => ⟨p.1 + 1, p.2.title, p.2.url⟩) : List Reference) := by
  induction cs with
  | nil => intro i; rfl
  | cons c rest ih =>
    intro i
    by_cases h : c.success
    · simp [getRefAux, List.enumFrom, List.filter, h, ih]
    · simp [getRefAux, List.enumFrom, List.filter, h, ih]

theorem getRefAux_chain (cs : List FetchedContent) :
    ∀ i, List.Chain' (· < ·) ((getRefAux i cs).map Reference.index) ∧
      ∀ r ∈ getRefAux i cs, i < r.index := by
  induction cs with
  | nil => intro i; exact ⟨List.chain'_nil, by intro r hr; cases hr⟩
  | cons c rest ih =>
    intro i
    by_cases h : c.success
    · have ih' := ih (i + 1)
      constructor
      · simp only [getRefAux, h, if_pos, List.map_cons]
        rw [List.chain'_cons']
        refine ⟨?_, ih'.1⟩
        intro b hb
        have hb' : b ∈ (getRefAux (i + 1) rest).map Reference.index :=
          List.mem_of_mem_head? hb
        obtain ⟨r, hr, hrb⟩ := List.mem_map.mp hb'
        have := ih'.2 r hr
        show i + 1 < b
        omega
      · intro r hr
        simp only [getRefAux, h, if_pos, List.mem_cons] at hr
        rcases hr with hr | hr
        · subst hr; show i < i + 1; omega
        · have := ih'.2 r hr; omega
    · have ih' := ih (i + 1)
      simp only [getRefAux, h, if_neg, Bool.false_eq_true, not_false_iff]
      exact ⟨ih'.1, fun r hr => by have := ih'.2 r hr; omega⟩

theorem getRefAux_length (cs : List FetchedContent) :
    ∀ i, (getRefAux i cs).length = cs.countP (fun c => c.success) := by
  induction cs with
  | nil => intro i; rfl
  | cons c rest ih =>
    intro i
    by_cases h : c.success <;>
      simp [getRefAux, h, ih, List.countP_cons]

/-- C2 (amended): the indices returned by `get_reference_list` are the
1-based positions of the successful entries inside `contents` (each
carrying that entry's title and url); they are strictly increasing, with
one entry per successful content.  They form a contiguous `1..k`
sequence only when the successful entries are a prefix of `contents`. -/
theorem c2_reference_positions (r : SearchResult) :
    get_reference_list r = specRefs r.contents ∧
    List.Chain' (· < ·) ((get_reference_list r).map Reference.index) ∧
    (get_reference_list r).length = r.contents.countP (fun c => c.success) := by
  refine ⟨?_, (getRefAux_chain r.contents 0).1, getRefAux_length r.contents 0⟩
  have h := getRefAux_eq_enumFrom r.contents 0
  simpa [get_reference_list, specRefs, List.enum] using h

/-- C2 (counterexample): a bundle whose first page failed and whose
second page succeeded yields the index list `[2]`, not the contiguous
`1..1` sequence `[1]` demanded by the claim. -/
theorem c2_counterexample :
    (get_reference_list
      { query := ("q".toList), search_queries := [],
        sources := [],
        contents :=
          [ { url := ("u1".toList), title := [], content := [],
              word_count := 0, success := false,
              error := some ("HTTP 404".toList) },
            { url := ("u2".toList), title := ("T".toList),
              content := ("body".toList), word_count := 4,
              success := true, error := none } ] }).map Reference.index = [2] ∧
    ([ { url := ("u1".toList), title := [], content := [],
         word_count := 0, success := false,
         error := some ("HTTP 404".toList) },
       { url := ("u2".toList), title := ("T".toList),
         content := ("body".toList), word_count := 4,
         success := true, error := none } ] :
       List FetchedContent).countP (fun c => c.success) = 1 ∧
    ([2] : List Nat) ≠ [1] := by
  refine ⟨rfl, rfl, by decide⟩

/-- C3: when a recency value is supplied, the provider payload's `tbs`
field carries `"qdr:"` followed by the shorthand of the enum
(day → d, week → w, month → m); when it is absent, no `tbs` field is
sent. -/
theorem c3_recency_field (q : PyStr) (n : Nat) (c l : Option PyStr)
    (tp : Option TimeFilter) :
    (serperPayload q n c l (tp.map TimeFilter.code)).tbs =
      tp.map (fun t => ("qdr:".toList) ++ TimeFilter.code t) := by
  cases tp with
  | none => rfl
  | some t => cases t <;> rfl

/-! ### Theorems for claims C4, C1 and C7 -/

/-- C4 (counterexample): on the query 北京今天天气怎么样 with no LLM
key, the rule path sets the time filter to `"w"` (week) — the keyword
今天 is in the freshness list that sets the week filter — and not to
the claimed `"d"` (day). -/
theorem c4_counterexample :
    (rewriteWithRules ("北京今天天气怎么样".toList) none ("zh-cn".toList)).time_filter
      = JVal.jstr ("w".toList) ∧
    (rewriteWithRules ("北京今天天气怎么样".toList) none ("zh-cn".toList)).time_filter
      ≠ JVal.jstr ("d".toList) := by
  refine ⟨rfl, fun h => ?_⟩
  have h' : JVal.jstr ("w".toList) = JVal.jstr ("d".toList) := h
  injection h' with h2
  exact absurd h2 (by decide)

/-- C4 (amended): for the query 北京今天天气怎么样 with no LLM key the
rule-based rewrite produces language `zh-cn`, timeFilter week (`"w"`,
because the query matches the keyword 今天), and searchType `search`,
with the single search query being the original query. -/
theorem c4_rule_scenario :
    rewriteWithRules ("北京今天天气怎么样".toList) none ("zh-cn".toList) =
      { search_queries := JVal.jarr [JVal.jstr ("北京今天天气怎么样".toList)],
        language := JVal.jstr ("zh-cn".toList),
        time_filter := JVal.jstr ("w".toList),
        search_type := JVal.jstr ("search".toList) } := rfl

/-- C1 (code bug): with an LLM key set, an HTTP-200 response whose body
is not valid JSON makes `response.json()` raise `json.JSONDecodeError`
before the local `text` is assigned; the handler for that exception
reads `text` for its log preview, so `rewrite` raises
`UnboundLocalError` instead of falling back to the rule-based
strategy. -/
theorem c1_llm_nonjson_body_raises :
    rewrite (some ("key".toList)) (fun _ => none) LLMEvent.badJsonBody
      ("hi".toList) none ("zh-cn".toList)
      = Except.error PyExc.unboundLocalError := rfl

/-- C7: when the cleaned body of a successful fetch is longer than
`max_length`, the stored body is at most `max_length` plus the marker
length, and it ends with the truncation marker. -/
theorem c7_fetch_truncation (url raw timeoutRepr : PyStr) (max_length : Nat)
    (h : max_length < (cleanContent raw).length) :
    (fetch_one url (FetchEvent.ok raw) timeoutRepr max_length).content.length
      ≤ max_length + fetchTruncMarker.length ∧
    fetchTruncMarker <:+
      (fetch_one url (FetchEvent.ok raw) timeoutRepr max_length).content := by
  have hc : (fetch_one url (FetchEvent.ok raw) timeoutRepr max_length).content
      = (cleanContent raw).take max_length ++ fetchTruncMarker := by
    simp [fetch_one, h]
  rw [hc]
  constructor
  · rw [List.length_append, List.length_take]
    omega
  · exact ⟨(cleanContent raw).take max_length, rfl⟩

theorem c7_fetch_truncation_witness :
    3 < (cleanContent ("abcdef".toList)).length ∧
    ((fetch_one ("u".toList) (FetchEvent.ok ("abcdef".toList))
        ("15.0".toList) 3).content.length ≤ 3 + fetchTruncMarker.length ∧
      fetchTruncMarker <:+
        (fetch_one ("u".toList) (FetchEvent.ok ("abcdef".toList))
          ("15.0".toList) 3).content) :=
  ⟨by decide,
   c7_fetch_truncation ("u".toList) ("abcdef".toList) ("15.0".toList) 3 (by decide)⟩

/-! ### Theorems for claim C9 -/

theorem shortLink_not_image (s : PyStr) (h : isShortLinkLine s = true) :
    isImageLine s = false := by
  cases s with
  | nil => exact absurd h (by decide)
  | cons c rest =>
    have hc : c = '[' := by
      simp only [isShortLinkLine, List.head?, Bool.and_eq_true, beq_iff_eq,
        Option.some.injEq] at h
      exact h.1.1
    subst hc
    rfl

theorem cleanAux_eq_spec (ls : List PyStr) :
    ∀ k, cleanAux k ls =
      ((ls.zip (runCounters k ls)).filter (fun p => specKeep p.2 p.1)).map Prod.fst := by
  induction ls with
  | nil => intro k; rfl
  | cons line rest ih =>
    intro k
    by_cases hsl : isShortLinkLine (pstrip line) = true
    · have himf : isImageLine (pstrip line) = false := shortLink_not_image _ hsl
      by_cases hk : k < 3
      · have hng : ¬ (k + 1 > 3) := by omega
        by_cases hb : containsBlob (pstrip line) = true
        · simp [cleanAux, runCounters, specKeep, hsl, himf, hb, hng, hk, ih]
        · simp [cleanAux, runCounters, specKeep, hsl, himf, hb, hng, hk, ih]
      · have hg : k + 1 > 3 := by omega
        simp [cleanAux, runCounters, specKeep, hsl, himf, hg, hk, ih]
    · by_cases hi : isImageLine (pstrip line) = true
      · simp [cleanAux, runCounters, specKeep, hsl, hi, ih]
      · by_cases hb : containsBlob (pstrip line) = true
        · simp [cleanAux, runCounters, specKeep, hsl, hi, hb, ih]
        · simp [cleanAux, runCounters, specKeep, hsl, hi, hb, ih]

/-- C9 (amended): the cleaner keeps a short markdown link line exactly
when fewer than 3 consecutive short-link lines immediately precede it
in its run AND the line does not contain `blob:`; any other line is
kept unless it is a pure-image line or contains `blob:`; every
non-short-link line resets the run.  (`specClean` pairs each line with
the length of the short-link run immediately preceding it.) -/
theorem c9_clean_run_positions (text : PyStr) :
    cleanContent text =
      List.intercalate ("\n".toList) (specClean (text.splitOn '\n')) := by
  unfold cleanContent specClean
  rw [cleanAux_eq_spec]

/-- C9 (counterexample): the single-line input `[a](blob:b)` is a short
markdown link line and is the 1st line of its run (the input has just
one line), yet the cleaner drops it — because it contains `blob:` —
contradicting "the first 3 are kept". -/
theorem c9_counterexample :
    (("[a](blob:b)".toList).splitOn '\n') = [("[a](blob:b)".toList)] ∧
    isShortLinkLine (pstrip ("[a](blob:b)".toList)) = true ∧
    cleanContent ("[a](blob:b)".toList) = [] :=
  ⟨rfl, rfl, rfl⟩

/-! ### Theorems for claims C8 and C10 -/

theorem successPartsAux_all_fail (cs : List FetchedContent) :
    ∀ (m i : Nat), (∀ c ∈ cs, c.success = false) →
      successPartsAux m i cs = [] := by
  induction cs with
  | nil => intro m i _; rfl
  | cons c rest ih =>
    intro m i h
    have hc : c.success = false := h c (List.mem_cons_self c rest)
    simp only [successPartsAux, hc, Bool.false_eq_true, if_false]
    exact ih m (i + 1) (fun d hd => h d (List.mem_cons_of_mem c hd))

theorem snippetListingAux_eq (src : List SearchSource) :
    ∀ i, snippetListingAux i src =
      (List.enumFrom i src).flatMap (fun p =>
        [ ("[".toList) ++ natStr (p.1 + 1) ++ ("] ".toList) ++ p.2.title,
          ("    URL: ".toList) ++ p.2.url,
          ("    ".toList) ++ p.2.snippet ++ ("\n".toList) ]) := by
  induction src with
  | nil => intro i; rfl
  | cons s rest ih =>
    intro i
    simp [snippetListingAux, List.enumFrom, ih]

theorem any_success_false {cs : List FetchedContent}
    (h : ∀ c ∈ cs, c.success = false) :
    cs.any (fun c => c.success) = false := by
  rw [List.any_eq_false]
  intro c hc
  rw [h c hc]
  decide

/-- C8: when every page failed, the rendered context is the header
followed by the snippet-fallback section — every source's title, url
and snippet numbered from 1 — and the loop over contents emits no
`### Source [..]` heading block at all. -/
theorem c8_fallback_render (r : SearchResult) (m : Nat)
    (h : ∀ c ∈ r.contents, c.success = false) :
    to_context_string r m =
      List.intercalate ("\n".toList)
        (headerPart r :: snippetHeader :: numberedListing r.sources) ∧
    successPartsAux m 0 r.contents = [] := by
  have h1 := successPartsAux_all_fail r.contents m 0 h
  have h2 := any_success_false h
  refine ⟨?_, h1⟩
  unfold to_context_string contextParts
  rw [h1, h2]
  simp [numberedListing, snippetListingAux_eq, List.enum]

theorem c8_fallback_render_witness :
    sampleFail.success = false ∧
    (to_context_string sampleBundle 5 =
      List.intercalate ("\n".toList)
        (headerPart sampleBundle :: snippetHeader
          :: numberedListing sampleBundle.sources) ∧
     successPartsAux 5 0 sampleBundle.contents = []) :=
  ⟨rfl, c8_fallback_render sampleBundle 5 (by decide)⟩

theorem successPartsAux_append (m : Nat) (pre : List FetchedContent) :
    ∀ (i : Nat) (cs : List FetchedContent),
      ∃ l, successPartsAux m i (pre ++ cs)
        = l ++ successPartsAux m (i + pre.length) cs := by
  induction pre with
  | nil => intro i cs; exact ⟨[], by simp⟩
  | cons p pre' ih =>
    intro i cs
    obtain ⟨l, hl⟩ := ih (i + 1) cs
    have harith : i + (pre'.length + 1) = i + 1 + pre'.length := by omega
    by_cases hp : p.success = true
    · refine ⟨srcHeading i p.title :: urlPart p.url
        :: (ctxBody m p.content ++ ("\n".toList)) :: l, ?_⟩
      simp [successPartsAux, hp, hl, harith]
    · refine ⟨l, ?_⟩
      simp [successPartsAux, hp, hl, harith]

/-- C10: the loop of `to_context_string` renders each successful page's
body truncated at `max_tokens_per_source * 4` characters — so a body of
length between `max_tokens_per_source` and 4 times that is NOT
truncated — appending the context marker exactly when the body exceeds
the 4x threshold. -/
theorem c10_render_truncation (m : Nat) (c : FetchedContent)
    (pre post : List FetchedContent) (hs : c.success = true) :
    (∃ l r', successPartsAux m 0 (pre ++ c :: post)
        = l ++ srcHeading pre.length c.title :: urlPart c.url
            :: (ctxBody m c.content ++ ("\n".toList)) :: r') ∧
    (c.content.length ≤ m * 4 → ctxBody m c.content = c.content) ∧
    (m * 4 < c.content.length →
      ctxBody m c.content = c.content.take (m * 4) ++ ctxTruncMarker ∧
      (ctxBody m c.content).length = m * 4 + ctxTruncMarker.length ∧
      ctxTruncMarker <:+ ctxBody m c.content) := by
  refine ⟨?_, ?_, ?_⟩
  · obtain ⟨l, hl⟩ := successPartsAux_append m pre 0 (c :: post)
    refine ⟨l, successPartsAux m (pre.length + 1) post, ?_⟩
    rw [hl]
    simp [successPartsAux, hs, Nat.zero_add]
  · intro hle
    unfold ctxBody
    rw [if_neg (by omega)]
  · intro hgt
    have he : ctxBody m c.content = c.content.take (m * 4) ++ ctxTruncMarker := by
      unfold ctxBody
      rw [if_pos hgt]
    refine ⟨he, ?_, ?_⟩
    · rw [he, List.length_append, List.length_take]
      omega
    · rw [he]
      exact ⟨c.content.take (m * 4), rfl⟩

theorem c10_render_truncation_witness :
    sampleSucc.success = true ∧
    (2 * 4 < sampleSucc.content.length ∧
      (ctxBody 2 sampleSucc.content).length = 2 * 4 + ctxTruncMarker.length ∧
      ctxTruncMarker <:+ ctxBody 2 sampleSucc.content) := by
  have h := (c10_render_truncation 2 sampleSucc [sampleFail] [] rfl).2.2 (by decide)
  exact ⟨rfl, by decide, h.2.1, h.2.2⟩

/-! ### Theorems for claim C5 -/

theorem mergeInner_eq_dedupSt (src : List SearchSource) :
    ∀ (seen : List PyStr) (acc : List SearchSource),
      mergeInner (seen, acc) src
        = ((dedupSt seen src).1, acc ++ (dedupSt seen src).2) := by
  induction src with
  | nil => intro seen acc; simp [mergeInner, dedupSt]
  | cons s rest ih =>
    intro seen acc
    by_cases h : s.url ∈ seen
    · simpa [mergeInner, dedupSt, h] using ih seen acc
    · simpa [mergeInner, dedupSt, h] using ih (s.url :: seen) (acc ++ [s])

theorem dedupSt_append (xs ys : List SearchSource) :
    ∀ (seen : List PyStr),
      dedupSt seen (xs ++ ys)
        = ((dedupSt (dedupSt seen xs).1 ys).1,
           (dedupSt seen xs).2 ++ (dedupSt (dedupSt seen xs).1 ys).2) := by
  induction xs with
  | nil => intro seen; simp [dedupSt]
  | cons x xs ih =>
    intro seen
    by_cases h : x.url ∈ seen
    · simp [dedupSt, h, ih]
    · simp [dedupSt, h, ih]

theorem mergeFold_eq_dedupSt (qres : List (List SearchSource)) :
    ∀ (seen : List PyStr) (acc : List SearchSource),
      qres.foldl mergeInner (seen, acc)
        = ((dedupSt seen qres.flatten).1, acc ++ (dedupSt seen qres.flatten).2) := by
  induction qres with
  | nil => intro seen acc; simp [dedupSt]
  | cons src qs ih =>
    intro seen acc
    rw [List.foldl_cons, mergeInner_eq_dedupSt, ih, List.flatten_cons,
      dedupSt_append]
    simp [List.append_assoc]

theorem dedupSt_eq_keepFirstAux (ls : List SearchSource) :
    ∀ (prev : List SearchSource) (seen : List PyStr),
      (∀ u : PyStr, u ∈ seen ↔ ∃ t ∈ prev, t.url = u) →
      (dedupSt seen ls).2 = keepFirstAux prev ls := by
  induction ls with
  | nil => intro prev seen _; rfl
  | cons s rest ih =>
    intro prev seen h
    have hall : (prev.all (fun t => !(t.url == s.url)) = true) ↔ s.url ∉ seen := by
      rw [List.all_eq_true]
      constructor
      · intro ha hmem
        obtain ⟨t, ht, htu⟩ := (h s.url).mp hmem
        have hx := ha t ht
        rw [htu] at hx
        simp at hx
      · intro hnm t ht
        by_contra hne
        apply hnm
        apply (h s.url).mpr
        refine ⟨t, ht, ?_⟩
        have hbt : (t.url == s.url) = true := by
          cases hbe : (t.url == s.url) with
          | true => rfl
          | false => exact absurd (by rw [hbe]; rfl) hne
        exact beq_iff_eq.mp hbt
    by_cases hmem : s.url ∈ seen
    · have hac : prev.all (fun t => !(t.url == s.url)) = false := by
        rw [← Bool.not_eq_true]
        intro hx
        exact (hall.mp hx) hmem
      simp only [dedupSt, hmem, if_true, keepFirstAux, hac, Bool.false_eq_true,
        if_false]
      apply ih (prev ++ [s]) seen
      intro u
      constructor
      · intro hu
        obtain ⟨t, ht, htu⟩ := (h u).mp hu
        exact ⟨t, List.mem_append_left _ ht, htu⟩
      · rintro ⟨t, ht, htu⟩
        rcases List.mem_append.mp ht with ht | ht
        · exact (h u).mpr ⟨t, ht, htu⟩
        · have hts : t = s := by simpa using ht
          subst hts
          rw [← htu]
          exact hmem
    · have hac : prev.all (fun t => !(t.url == s.url)) = true := hall.mpr hmem
      simp only [dedupSt, hmem, if_false, keepFirstAux, hac, if_true]
      congr 1
      apply ih (prev ++ [s]) (s.url :: seen)
      intro u
      constructor
      · intro hu
        rcases List.mem_cons.mp hu with hu | hu
        · exact ⟨s, List.mem_append_right _ (List.mem_singleton.mpr rfl), hu.symm⟩
        · obtain ⟨t, ht, htu⟩ := (h u).mp hu
          exact ⟨t, List.mem_append_left _ ht, htu⟩
      · rintro ⟨t, ht, htu⟩
        rcases List.mem_append.mp ht with ht | ht
        · exact List.mem_cons_of_mem _ ((h u).mpr ⟨t, ht, htu⟩)
        · have hts : t = s := by simpa using ht
          subst hts
          rw [← htu]
          exact List.mem_cons_self _ _

theorem dedupSt_url_nodup (ls : List SearchSource) :
    ∀ (seen : List PyStr),
      (((dedupSt seen ls).2.map (fun s => s.url)).Nodup) ∧
      ∀ u ∈ (dedupSt seen ls).2.map (fun s => s.url), u ∉ seen := by
  induction ls with
  | nil =>
    intro seen
    exact ⟨List.nodup_nil, fun u hu => absurd hu (List.not_mem_nil u)⟩
  | cons s rest ih =>
    intro seen
    by_cases h : s.url ∈ seen
    · simpa [dedupSt, h] using ih seen
    · have ihs := ih (s.url :: seen)
      have hmap : (dedupSt seen (s :: rest)).2.map (fun s => s.url)
          = s.url :: (dedupSt (s.url :: seen) rest).2.map (fun s => s.url) := by
        simp [dedupSt, h]
      constructor
      · rw [hmap, List.nodup_cons]
        refine ⟨fun hmem => (ihs.2 _ hmem) (List.mem_cons_self _ _), ihs.1⟩
      · intro u hu
        rw [hmap] at hu
        rcases List.mem_cons.mp hu with hu | hu
        · subst hu; exact h
        · exact fun hus => (ihs.2 u hu) (List.mem_cons_of_mem _ hus)

/-- C5: the urls of the merged source list are pairwise distinct, and
the merge keeps exactly the first occurrence of every url of the
flattened per-query results (with its title and snippet), discarding
every later duplicate entirely. -/
theorem c5_merge_first_occurrence (qres : List (List SearchSource)) :
    mergeStep qres = keepFirst qres.flatten ∧
    ((mergeStep qres).map (fun s => s.url)).Nodup := by
  have hm : mergeStep qres = (dedupSt [] qres.flatten).2 := by
    unfold mergeStep
    rw [mergeFold_eq_dedupSt]
    simp
  constructor
  · rw [hm]
    apply dedupSt_eq_keepFirstAux qres.flatten [] []
    intro u
    constructor
    · intro hu; exact absurd hu (List.not_mem_nil u)
    · rintro ⟨t, ht, -⟩; exact absurd ht (List.not_mem_nil t)
  · rw [hm]
    exact (dedupSt_url_nodup qres.flatten []).1

/-! ### Theorems for claim C6 -/

theorem writeSlots_apply (sched : List Nat) :
    ∀ (val : Nat → FetchedContent) (g : Nat → Option FetchedContent) (j : Nat),
      writeSlots val g sched j = if j ∈ sched then some (val j) else g j := by
  induction sched with
  | nil => intro val g j; simp [writeSlots]
  | cons i rest ih =>
    intro val g j
    show writeSlots val (fun j => if j = i then some (val i) else g j) rest j
      = if j ∈ i :: rest then some (val j) else g j
    rw [ih]
    by_cases hj : j ∈ rest
    · simp [hj, List.mem_cons]
    · by_cases hji : j = i
      · subst hji
        simp [hj, List.mem_cons]
      · simp [hj, hji, List.mem_cons]

/-- C6: for every completion schedule that is a permutation of the task
indices, `fetch_many` returns one `FetchedContent` per input url, in
input order — the element at every index is the fetch result for the
url at the same index, independent of the order in which the individual
fetches complete. -/
theorem c6_fetch_many_order (net : PyStr → FetchEvent) (urls : List PyStr)
    (max_concurrent : Nat) (timeoutRepr : PyStr) (max_length : Nat)
    (sched : List Nat) (hperm : sched.Perm (List.range urls.length)) :
    fetch_many net urls max_concurrent timeoutRepr max_length sched
      = urls.map (fun u => fetch_one u (net u) timeoutRepr max_length) ∧
    (fetch_many net urls max_concurrent timeoutRepr max_length sched).length
      = urls.length := by
  have hmain : fetch_many net urls max_concurrent timeoutRepr max_length sched
      = urls.map (fun u => fetch_one u (net u) timeoutRepr max_length) := by
    unfold fetch_many
    apply List.ext_getElem
    · simp
    · intro i h1 h2
      simp only [List.getElem_map, List.getElem_range]
      rw [writeSlots_apply]
      have hlen : i < urls.length := by simpa using h1
      have hi : i ∈ sched := hperm.mem_iff.mpr (List.mem_range.mpr hlen)
      rw [if_pos hi]
      simp [List.getElem?_eq_getElem hlen]
  exact ⟨hmain, by rw [hmain]; simp⟩

theorem c6_fetch_many_order_witness :
    ([2, 0, 1] : List Nat).Perm
      (List.range (["a".toList, "b".toList, "c".toList] : List PyStr).length) ∧
    fetch_many (fun _ => FetchEvent.timeout)
        (["a".toList, "b".toList, "c".toList]) 4 ("15.0".toList) 100 [2, 0, 1]
      = (["a".toList, "b".toList, "c".toList] : List PyStr).map
          (fun u => fetch_one u ((fun _ => FetchEvent.timeout) u)
            ("15.0".toList) 100) :=
  ⟨by decide,
   (c6_fetch_many_order (fun _ => FetchEvent.timeout)
     (["a".toList, "b".toList, "c".toList]) 4 ("15.0".toList) 100 [2, 0, 1]
     (by decide)).1⟩
